import Mathlib

/-!
Verification of the CSV-to-CFONB120 converter (`csv_to_cfonb120final.py` and
`csv_to_cfonb120.py`).  Strings are modelled as `List Char`.  Python `Decimal`
values are modelled exactly by their integer mantissa and exponent (`Dec`,
value `num * 10 ^ exp`), mirroring Python's `(sign, digits, exponent)`
representation; the operations the source uses — `abs`, comparison with zero,
multiplication by `10 ** decimals`, `quantize(Decimal("1"))` under the default
`ROUND_HALF_EVEN` context, addition, subtraction and `sum` — are exact at
these sizes and are modelled exactly.  Fallible code returns `Except String`.
-/

deriving instance DecidableEq for Except

namespace CFONB

/-- Strings of the source are modelled as lists of unicode characters. -/
abbrev Str := List Char

/-- `CFONB_WIDTH = 120` (csv_to_cfonb120final.py line 15). -/
def CFONB_WIDTH : Nat := 120

/-- `AMOUNT_WIDTH = 14` (csv_to_cfonb120final.py line 16). -/
def AMOUNT_WIDTH : Nat := 14

/-- ASCII decimal digit test. -/
def isDigitChar (c : Char) : Bool := 48 ≤ c.toNat && c.toNat ≤ 57

/-- The ten decimal digit characters, in order. -/
def DIGITS : Str := ['0', '1', '2', '3', '4', '5', '6', '7', '8', '9']

/-- The character for the decimal digit `d` (`d < 10`). -/
def digitChar (d : Nat) : Char := Char.ofNat (48 + d)

/-- Digit renderer: `natReprAux fuel n` is the decimal digit string of `n`,
most significant first, provided `n ≤ fuel` (structural fuel keeps the
function kernel-reducible). -/
def natReprAux : Nat → Nat → Str
  | _, 0 => []
  | 0, _ + 1 => []
  | fuel + 1, n + 1 => natReprAux fuel ((n + 1) / 10) ++ [digitChar ((n + 1) % 10)]

/-- Python `f"\x7bn:d\x7d"` for a nonnegative integer `n`: its decimal digit
string, most significant digit first, `"0"` for zero. -/
def pyNatRepr (n : Nat) : Str :=
  if n = 0 then ['0'] else natReprAux n n

/-- Number of decimal digits of `n` as rendered by `pyNatRepr`. -/
def numDigits (n : Nat) : Nat := (pyNatRepr n).length

/-- Python `str.rjust(w, fill)`: left-pad to width `w`; a longer string is
returned unchanged. -/
def rjust (s : Str) (w : Nat) (fill : Char) : Str :=
  List.replicate (w - s.length) fill ++ s

/-- Python `str.ljust(w, fill)`: right-pad to width `w`; a longer string is
returned unchanged. -/
def ljust (s : Str) (w : Nat) (fill : Char) : Str :=
  s ++ List.replicate (w - s.length) fill

/-- A Python `Decimal` value: `num * 10 ^ exp`, exactly.  `Decimal("12.50")`
is `⟨1250, -2⟩`, `Decimal("0.00")` is `⟨0, -2⟩`. -/
structure Dec where
  num : Int
  exp : Int
deriving DecidableEq

/-- The exact rational value of a `Dec`. -/
def Dec.toRat (d : Dec) : ℚ := (d.num : ℚ) * (10 : ℚ) ^ d.exp

/-- Decimal negation (exact). -/
def Dec.neg (d : Dec) : Dec := ⟨-d.num, d.exp⟩

/-- Decimal addition (exact: mantissas are aligned to the smaller exponent). -/
def Dec.add (a b : Dec) : Dec :=
  let m := min a.exp b.exp
  ⟨a.num * 10 ^ (a.exp - m).toNat + b.num * 10 ^ (b.exp - m).toNat, m⟩

/-- Decimal subtraction (exact). -/
def Dec.sub (a b : Dec) : Dec := a.add b.neg

/-- `sum(...)` over decimals, starting from the integer `0` as Python's
built-in `sum` does. -/
def Dec.sumList (l : List Dec) : Dec := l.foldl Dec.add ⟨0, 0⟩

/-- Round the nonnegative rational `num / den` to the nearest natural number,
ties to the even neighbour: `Decimal.quantize(Decimal("1"))` under Python's
default context rounding `ROUND_HALF_EVEN` (csv_to_cfonb120final.py
line 47). -/
def roundHalfEven (num den : Nat) : Nat :=
  let q := num / den
  let r := num % den
  if 2 * r < den then q
  else if den < 2 * r then q + 1
  else if q % 2 = 0 then q else q + 1

/-- Round the nonnegative value `n * 10 ^ e` to the nearest natural number,
ties to even: exact when `e ≥ 0`, otherwise `roundHalfEven` over the power of
ten denominator. -/
def quantN (n : Nat) (e : Int) : Nat :=
  if 0 ≤ e then n * 10 ^ e.toNat else roundHalfEven n (10 ^ (-e).toNat)

/-- `(abs(amount) * 10 ** decimals).quantize(Decimal("1"))` of
csv_to_cfonb120final.py lines 46-47, as a natural number: the scaled unsigned
magnitude, rounded to the nearest integer with ties to even. -/
def scaleAbs (amount : Dec) (decimals : Nat) : Nat :=
  quantN amount.num.natAbs (amount.exp + decimals)

/-- `CREDIT_MAP` (csv_to_cfonb120final.py line 12): overpunch substitution for
the last digit of a nonnegative amount. -/
def CREDIT_MAP : Char → Option Char
  | '0' => some '\x7b'
  | '1' => some 'A'
  | '2' => some 'B'
  | '3' => some 'C'
  | '4' => some 'D'
  | '5' => some 'E'
  | '6' => some 'F'
  | '7' => some 'G'
  | '8' => some 'H'
  | '9' => some 'I'
  | _ => none

/-- `DEBIT_MAP` (csv_to_cfonb120final.py line 13): overpunch substitution for
the last digit of a negative amount. -/
def DEBIT_MAP : Char → Option Char
  | '0' => some '\x7d'
  | '1' => some 'J'
  | '2' => some 'K'
  | '3' => some 'L'
  | '4' => some 'M'
  | '5' => some 'N'
  | '6' => some 'O'
  | '7' => some 'P'
  | '8' => some 'Q'
  | '9' => some 'R'
  | _ => none

/-- `cfonb_encode_amount` (csv_to_cfonb120final.py lines 44-54).  Scales the
absolute value, renders the digits, raises on overflow, zero-pads to `width`,
and replaces the last digit through `CREDIT_MAP` (amount ≥ 0, i.e. mantissa
≥ 0) or `DEBIT_MAP` (amount < 0).  The two `.error "digit"` branches are
unreachable: the last character of the zero-padded digit string is always a
digit, on which both maps are defined. -/
def cfonb_encode_amount (amount : Dec) (decimals : Nat := 2)
    (width : Nat := AMOUNT_WIDTH) : Except String Str :=
  let sign : Int := if 0 ≤ amount.num then 1 else -1
  let scaled := scaleAbs amount decimals
  let digits := pyNatRepr scaled
  if width < digits.length then .error "Amount too large for CFONB width"
  else
    let digits := rjust digits width '0'
    match digits.getLast? with
    | none => .error "digit"
    | some last =>
      match (if 0 ≤ sign then CREDIT_MAP last else DEBIT_MAP last) with
      | none => .error "digit"
      | some enc => .ok (digits.dropLast ++ [enc])

/-- Decoder used by the round-trip property: inverse lookup of an overpunch
character across both substitution tables, returning the original digit
character and `true` for credit / `false` for debit. -/
def decode_overpunch (c : Char) : Option (Char × Bool) :=
  match DIGITS.find? (fun d => CREDIT_MAP d = some c) with
  | some d => some (d, true)
  | none =>
    match DIGITS.find? (fun d => DEBIT_MAP d = some c) with
    | some d => some (d, false)
    | none => none

/-- Modelled from the spec: the round-half-up tie rule the specification
prescribes for the amount encoder ("round to the nearest integer using
round-half-up on ties"), for comparison with `roundHalfEven`. -/
def roundHalfUpSpec (num den : Nat) : Nat :=
  let q := num / den
  let r := num % den
  if 2 * r < den then q else q + 1

/-- Modelled from the spec: the scaled unsigned magnitude under the
specification's round-half-up rule. -/
def scaleAbsHalfUpSpec (amount : Dec) (decimals : Nat) : Nat :=
  let e := amount.exp + decimals
  if 0 ≤ e then amount.num.natAbs * 10 ^ e.toNat
  else roundHalfUpSpec amount.num.natAbs (10 ^ (-e).toNat)

/-- Python's unicode whitespace predicate, as used by `str.strip()` and
`str.split()` with no argument. -/
def isSpaceChar (c : Char) : Bool :=
  c.toNat = 32 || (9 ≤ c.toNat && c.toNat ≤ 13) || (28 ≤ c.toNat && c.toNat ≤ 31) ||
  c.toNat = 133 || c.toNat = 160 || c.toNat = 5760 ||
  (8192 ≤ c.toNat && c.toNat ≤ 8202) || c.toNat = 8232 || c.toNat = 8233 ||
  c.toNat = 8239 || c.toNat = 8287 || c.toNat = 12288

/-- Python `str.strip()`: remove leading and trailing whitespace. -/
def pyStrip (l : Str) : Str :=
  ((l.dropWhile isSpaceChar).reverse.dropWhile isSpaceChar).reverse

/-- The head of a `dropWhile` result fails the predicate. -/
theorem dropWhile_head_not {α : Type} (p : α → Bool) (l : List α) {c : α}
    {r : List α} (h : l.dropWhile p = c :: r) : p c = false := by
  induction l with
  | nil => simp at h
  | cons a t ih =>
    rw [List.dropWhile_cons] at h
    by_cases hp : p a = true
    · rw [if_pos hp] at h
      exact ih h
    · rw [if_neg hp] at h
      cases h
      simpa using hp

/-- Python `str.split()` with no argument: maximal runs of non-whitespace,
empty words never produced. -/
def pySplit (l : Str) : List Str :=
  if h : l.dropWhile isSpaceChar = [] then []
  else
    (l.dropWhile isSpaceChar).takeWhile (fun c => !isSpaceChar c) ::
      pySplit ((l.dropWhile isSpaceChar).dropWhile (fun c => !isSpaceChar c))
termination_by l.length
decreasing_by
  obtain ⟨c, r, ht⟩ := List.exists_cons_of_ne_nil h
  have hc : isSpaceChar c = false := dropWhile_head_not _ _ ht
  have h1 : (c :: r).length ≤ l.length := by
    rw [← ht]
    exact (List.dropWhile_sublist isSpaceChar).length_le
  rw [ht, List.dropWhile_cons]
  simp only [hc, Bool.not_false, if_pos]
  calc (List.dropWhile (fun c => !isSpaceChar c) r).length
      ≤ r.length := (List.dropWhile_sublist _).length_le
    _ < (c :: r).length := by simp
    _ ≤ l.length := h1

/-- `" ".join(...)`. -/
def joinSpace (ws : List Str) : Str := List.intercalate [' '] ws

/-- Python `str.upper()`, per character (a character may uppercase to several
characters, e.g. `'ß'` to `"SS"`).  It is modelled exactly on the Latin-1
range; code points above U+00FF are kept unchanged, which is adequate here
because `sanitize_label` immediately replaces every non-Latin-1 character
with `'?'`. -/
def upperChar (c : Char) : Str :=
  let n := c.toNat
  if 97 ≤ n ∧ n ≤ 122 then [Char.ofNat (n - 32)]
  else if n = 223 then ['S', 'S']
  else if n = 181 then [Char.ofNat 924]
  else if n = 255 then [Char.ofNat 376]
  else if 224 ≤ n ∧ n ≤ 254 ∧ n ≠ 247 then [Char.ofNat (n - 32)]
  else [c]

/-- Python `str.upper()` on a string. -/
def pyUpper (l : Str) : Str := l.flatMap upperChar

/-- One character of `.encode("latin1", "replace").decode("latin1")`: any
character outside Latin-1 becomes `'?'`. -/
def latin1Char (c : Char) : Char := if c.toNat ≤ 255 then c else '?'

/-- `.encode("latin1", "replace").decode("latin1")` on a string. -/
def latin1Replace (l : Str) : Str := l.map latin1Char

/-- `sanitize_label` (csv_to_cfonb120final.py lines 56-59): collapse
whitespace runs to single spaces and trim (`" ".join(label.strip().split())`),
uppercase, replace non-Latin-1 characters. -/
def sanitize_label (label : Str) : Str :=
  latin1Replace (pyUpper (joinSpace (pySplit (pyStrip label))))

/-- The local helper `put` of `build_line` (csv_to_cfonb120final.py lines
64-71): truncate `value` to the field width, justify with spaces, and write it
into `line[start:stop]`. -/
def putField (line : Str) (start stop : Nat) (value : Str) (alignRight : Bool) : Str :=
  let width := stop - start
  let v := value.take width
  let v := if alignRight then rjust v width ' ' else ljust v width ' '
  line.take start ++ v ++ line.drop stop

/-- `build_line` (csv_to_cfonb120final.py lines 61-92): assemble one
120-character record from a space-filled buffer. -/
def build_line (rec_type bank_code branch_code account_number date_ddmmyy
    amount_str name ref comp_type comp_info : Str) : Str :=
  let line := List.replicate CFONB_WIDTH ' '
  let line := putField line 0 2 rec_type false
  let line := putField line 2 7 bank_code false
  let line := putField line 11 16 branch_code false
  let line := putField line 16 19 ['E', 'U', 'R'] false
  let line := putField line 19 20 ['2'] false
  let line := putField line 21 32 account_number false
  let line := putField line 34 40 date_ddmmyy false
  let line :=
    if rec_type = ['0', '5'] then
      putField (putField line 45 48 comp_type false) 48 118 comp_info false
    else
      putField (putField line 48 79 name false) 81 88 ref false
  if amount_str ≠ [] then putField line 90 104 amount_str true else line

/-- A normalized transaction as consumed by `main`'s emission loop
(csv_to_cfonb120final.py lines 188-219): the date is carried as its already
rendered `"%d%m%y"` string (`datetime` is an external collaborator). -/
structure Tx where
  dateStr : Str
  amount : Dec
  label : Str
deriving DecidableEq

/-- `f"\x7bseq:07d\x7d"` (csv_to_cfonb120final.py line 190). -/
def seqRef (seq : Nat) : Str := rjust (pyNatRepr seq) 7 '0'

/-- `name = label[:31]` (csv_to_cfonb120final.py line 192): the inline label
portion of a transaction record. -/
def inlineName (label : Str) : Str := label.take 31

/-- `comp = label[31:31 + 70]` (csv_to_cfonb120final.py line 207): the single
continuation chunk. -/
def compChunk (label : Str) : Str := (label.drop 31).take 70

/-- The lines `main` emits for one transaction (csv_to_cfonb120final.py lines
189-218): the 04 record, plus one 05 `LIB` record when the label is longer
than 31 characters. -/
def txLines (bank branch acct : Str) (seq : Nat) (tx : Tx) :
    Except String (List Str) :=
  match cfonb_encode_amount tx.amount 2 14 with
  | .error e => .error e
  | .ok amount_str =>
    let l04 := build_line ['0', '4'] bank branch acct tx.dateStr amount_str
      (inlineName tx.label) (seqRef seq) [] []
    if 31 < tx.label.length then
      .ok [l04, build_line ['0', '5'] bank branch acct tx.dateStr [] [] []
        ['L', 'I', 'B'] (compChunk tx.label)]
    else .ok [l04]

/-- The transaction loop of `main` (csv_to_cfonb120final.py lines 188-219),
with the 1-based sequence counter. -/
def txsLines (bank branch acct : Str) : Nat → List Tx → Except String (List Str)
  | _, [] => .ok []
  | seq, tx :: rest =>
    match txLines bank branch acct seq tx with
    | .error e => .error e
    | .ok ls =>
      match txsLines bank branch acct (seq + 1) rest with
      | .error e => .error e
      | .ok more => .ok (ls ++ more)

/-- `--balance-mode` (csv_to_cfonb120final.py lines 143-148). -/
inductive BalanceMode
  | opening
  | closing
deriving DecidableEq

/-- The balance computation of `main` (csv_to_cfonb120final.py lines 166-171):
`(start_balance, end_balance)`. -/
def mainBalances (mode : BalanceMode) (openingBalance total : Dec) : Dec × Dec :=
  match mode with
  | .opening => (openingBalance, openingBalance.add total)
  | .closing => (openingBalance.sub total, openingBalance)

/-- The record emission of `main` (csv_to_cfonb120final.py lines 153-231):
the 01 opening record, the transaction records, the 07 closing record.  The
input list is `main`'s date-sorted transaction list (the sort key is the
external `datetime` value); `opening_balance = None` defaults to
`Decimal("0.00")` (line 163-164). -/
def mainLines (bank branch acct : Str) (mode : BalanceMode)
    (openingBalance : Option Dec) (txs : List Tx) : Except String (List Str) :=
  match txs with
  | [] => .error "No transactions found in CSV."
  | t0 :: _ =>
    let startDate := t0.dateStr
    let endDate := (txs.getLastD t0).dateStr
    let total := Dec.sumList (txs.map Tx.amount)
    let ob := openingBalance.getD ⟨0, -2⟩
    let b := mainBalances mode ob total
    match cfonb_encode_amount b.1 2 14 with
    | .error e => .error e
    | .ok openAmt =>
      match txsLines bank branch acct 1 txs with
      | .error e => .error e
      | .ok body =>
        match cfonb_encode_amount b.2 2 14 with
        | .error e => .error e
        | .ok closeAmt =>
          .ok (build_line ['0', '1'] bank branch acct startDate openAmt [] [] [] []
            :: body ++
            [build_line ['0', '7'] bank branch acct endDate closeAmt [] [] [] []])

/-- `^\d\x7b2\x7d/\d\x7b2\x7d/\d\x7b4\x7d$` — `DATE_RE`
(csv_to_cfonb120final.py line 10). -/
def dateRe (s : Str) : Bool :=
  match s with
  | [d0, d1, s2, d3, d4, s5, d6, d7, d8, d9] =>
    isDigitChar d0 && isDigitChar d1 && s2 == '/' && isDigitChar d3 &&
      isDigitChar d4 && s5 == '/' && isDigitChar d6 && isDigitChar d7 &&
      isDigitChar d8 && isDigitChar d9
  | _ => false

/-- Take the leading run of ASCII digits, as digit values. -/
def takeDigits : Str → List Nat × Str
  | [] => ([], [])
  | c :: rest =>
    if isDigitChar c then
      let (ds, r) := takeDigits rest
      ((c.toNat - 48) :: ds, r)
    else ([], c :: rest)

/-- The value of a big-endian digit list. -/
def digitsVal (ds : List Nat) : Nat := ds.foldl (fun a d => 10 * a + d) 0

/-- Optional exponent suffix of a decimal literal (`e`/`E`, optional sign,
digits); anything else trailing makes the literal invalid. -/
def decParseExp (mantNum mantExp : Int) (s : Str) : Option Dec :=
  match s with
  | [] => some ⟨mantNum, mantExp⟩
  | c :: r =>
    if c == 'e' || c == 'E' then
      let (esgn, r2) : Int × Str :=
        match r with
        | '+' :: t => (1, t)
        | '-' :: t => (-1, t)
        | _ => (1, r)
      let (eds, r3) := takeDigits r2
      if eds = [] || r3 ≠ [] then none
      else some ⟨mantNum, mantExp + esgn * (digitsVal eds : Int)⟩
    else none

/-- Modelled from the spec: the external `decimal.Decimal` string constructor
(an out-of-scope collaborator, "locale-specific ... normalization of raw
numeric text into a parsed decimal value") on finite numeric literals:
optional sign, digits with optional fraction part, optional exponent.
Special forms (`NaN`, `Infinity`, underscores) are outside the model. -/
def decParse (s : Str) : Option Dec :=
  let (sgn, s1) : Int × Str :=
    match s with
    | '+' :: r => (1, r)
    | '-' :: r => (-1, r)
    | _ => (1, s)
  let (ip, s2) := takeDigits s1
  match s2 with
  | '.' :: r =>
    let (fp, s3) := takeDigits r
    if ip = [] && fp = [] then none
    else decParseExp (sgn * (digitsVal (ip ++ fp) : Int)) (-(fp.length : Int)) s3
  | _ =>
    if ip = [] then none
    else decParseExp (sgn * (digitsVal ip : Int)) 0 s2

/-- The separator normalization of `parse_amount` (csv_to_cfonb120final.py
lines 37-38): drop spaces and non-breaking spaces, turn `,` into `.`. -/
def normalizeAmount (s : Str) : Str :=
  (s.filter (fun c => !(c == ' ' || c == Char.ofNat 160))).map
    (fun c => if c == ',' then '.' else c)

/-- `parse_amount` (csv_to_cfonb120final.py lines 31-42): `None` or blank
gives `None`; otherwise strip, normalize the locale separators and parse as a
decimal, raising `ValueError` ("Invalid amount") on failure.  The error
message's interpolated payload is abstracted away. -/
def parse_amount (raw : Option Str) : Except String (Option Dec) :=
  match raw with
  | none => .ok none
  | some raw =>
    let s := pyStrip raw
    if s = [] then .ok none
    else
      match decParse (normalizeAmount s) with
      | some q => .ok (some q)
      | none => .error "Invalid amount"

/-- A transaction produced by `parse_csv_transactions`: the date is kept as
its stripped `DD/MM/YYYY` cell text (`strptime` is an external collaborator
and is called after the amount parse). -/
structure PTx where
  dateStr : Str
  amount : Dec
  label : Str
deriving DecidableEq

/-- Loop state of `parse_csv_transactions`: the `started` flag, the latest
opening-balance cell parse, the accumulated transactions. -/
structure ParseState where
  started : Bool
  opening : Option Dec
  txs : List PTx
deriving DecidableEq

/-- Row cell access; `pad6` makes missing cells empty per
`row + [""] * (6 - len(row))` (csv_to_cfonb120final.py line 104). -/
def getCol (row : List Str) (i : Nat) : Str := row.getD i []

/-- `row + [""] * (6 - len(row))`. -/
def pad6 (row : List Str) : List Str := row ++ List.replicate (6 - row.length) []

/-- One iteration of the row loop of `parse_csv_transactions`
(csv_to_cfonb120final.py lines 101-134): skip empty rows; skip rows before
the first date row; an opening-balance row (no date in column 0, a date in
column 3) parses column 5 into the opening balance; other non-date rows are
skipped; a date row parses column 4 as the amount — a blank amount skips the
row, an unparsable one raises — then joins the non-empty label cells 1-3 and
appends a sanitized transaction. -/
def rowStep (st : ParseState) (row0 : List Str) : Except String ParseState :=
  if row0 = [] then .ok st
  else
    let row := pad6 row0
    let d0 := dateRe (pyStrip (getCol row 0))
    if st.started = false && d0 = false then .ok st
    else
      if d0 = false && dateRe (pyStrip (getCol row 3)) then
        match parse_amount (some (getCol row 5)) with
        | .error e => .error e
        | .ok ob => .ok ⟨true, ob, st.txs⟩
      else if d0 = false then .ok ⟨true, st.opening, st.txs⟩
      else
        match parse_amount (some (getCol row 4)) with
        | .error e => .error e
        | .ok none => .ok ⟨true, st.opening, st.txs⟩
        | .ok (some amt) =>
          let label := joinSpace
            (([getCol row 1, getCol row 2, getCol row 3]).filter
              (fun p => !(p == []) && !(pyStrip p == [])))
          .ok ⟨true, st.opening,
            st.txs ++ [⟨pyStrip (getCol row 0), amt, sanitize_label label⟩]⟩

/-- The row loop of `parse_csv_transactions` over all rows. -/
def processRows (st : ParseState) : List (List Str) → Except String ParseState
  | [] => .ok st
  | row :: rest =>
    match rowStep st row with
    | .error e => .error e
    | .ok st2 => processRows st2 rest

/-- `parse_csv_transactions` (csv_to_cfonb120final.py lines 94-136) on the
decoded CSV rows. -/
def parse_csv_transactions (rows : List (List Str)) :
    Except String (Option Dec × List PTx) :=
  match processRows ⟨false, none, []⟩ rows with
  | .error e => .error e
  | .ok st => .ok (st.opening, st.txs)

/-- `pad_left` (csv_to_cfonb120.py lines 24-26): right-justify then truncate
to `length` (`s.rjust(length, fill)[:length]`). -/
def pad_left (s : Str) (len : Nat) (fill : Char) : Str := (rjust s len fill).take len

/-- `pad_right` (csv_to_cfonb120.py lines 28-30): left-justify then truncate
to `length` (`s.ljust(length, fill)[:length]`). -/
def pad_right (s : Str) (len : Nat) (fill : Char) : Str := (ljust s len fill).take len

/-- `split_into_chunks` (csv_to_cfonb120.py lines 170-172): successive
windows of `size` characters (the source is only called with `size = 70`;
`size = 0` would raise in Python's `range` and is mapped to `[]`). -/
def split_into_chunks (s : Str) (size : Nat) : List Str :=
  if hz : size = 0 then []
  else if hs : s = [] then []
  else s.take size :: split_into_chunks (s.drop size) size
termination_by s.length
decreasing_by
  have h1 : 0 < size := Nat.pos_of_ne_zero hz
  have h2 : 0 < s.length := List.length_pos.2 hs
  simp only [List.length_drop]
  omega

/-- The balance fields variant 2 emits (csv_to_cfonb120.py `convert`, lines
227-258): the 01 header's amount carries `opening_balance` (blank when
`None`, lines 52-55), and the 07 footer's amount carries `total`, the running
sum of the transaction amounts alone (lines 236-241, 257).  The source
accumulates `total` in binary floats; the model uses exact decimal addition,
which only favours the claimed absence of drift. -/
def convertAmounts (openingBalance : Option Dec) (txAmounts : List Dec) :
    Option Dec × Dec :=
  (openingBalance, txAmounts.foldl Dec.add ⟨0, 0⟩)

/-! ## Supporting lemmas -/

theorem digitChar_mem_DIGITS : ∀ d : Nat, d < 10 → digitChar d ∈ DIGITS := by decide

theorem natReprAux_mem (fuel : Nat) :
    ∀ n, ∀ c ∈ natReprAux fuel n, c ∈ DIGITS := by
  induction fuel with
  | zero =>
    intro n c hc
    cases n <;> simp [natReprAux] at hc
  | succ fuel ih =>
    intro n c hc
    cases n with
    | zero => simp [natReprAux] at hc
    | succ m =>
      simp only [natReprAux] at hc
      rcases List.mem_append.1 hc with h1 | h1
      · exact ih _ _ h1
      · simp only [List.mem_singleton] at h1
        subst h1
        exact digitChar_mem_DIGITS _ (Nat.mod_lt _ (by norm_num))

theorem pyNatRepr_mem (n : Nat) : ∀ c ∈ pyNatRepr n, c ∈ DIGITS := by
  intro c hc
  by_cases h : n = 0
  · subst h
    simp [pyNatRepr] at hc
    subst hc
    decide
  · rw [pyNatRepr, if_neg h] at hc
    exact natReprAux_mem n n c hc

theorem pyNatRepr_ne_nil (n : Nat) : pyNatRepr n ≠ [] := by
  cases n with
  | zero => decide
  | succ m => simp [pyNatRepr, natReprAux]

theorem rjust_length (s : Str) (w : Nat) (f : Char) :
    (rjust s w f).length = max w s.length := by
  simp [rjust]
  omega

theorem rjust_getLast? (s : Str) (w : Nat) (f : Char) (h : s ≠ []) :
    (rjust s w f).getLast? = s.getLast? := by
  rw [rjust, List.getLast?_append, List.getLast?_eq_getLast_of_ne_nil h]
  rfl

theorem maps_isSome : ∀ d ∈ DIGITS, (CREDIT_MAP d).isSome ∧ (DEBIT_MAP d).isSome := by
  decide

theorem decode_CREDIT :
    ∀ d ∈ DIGITS, (CREDIT_MAP d).map decode_overpunch = some (some (d, true)) := by
  decide

theorem decode_DEBIT :
    ∀ d ∈ DIGITS, (DEBIT_MAP d).map decode_overpunch = some (some (d, false)) := by
  decide

/-- Successful-encode characterization: whenever the scaled magnitude fits the
width, `cfonb_encode_amount` returns the zero-padded digit string with its
last character substituted through the sign-selected table. -/
theorem cfonb_encode_ok (amount : Dec) (decimals width : Nat)
    (h : numDigits (scaleAbs amount decimals) ≤ width) :
    ∃ last enc,
      (rjust (pyNatRepr (scaleAbs amount decimals)) width '0').getLast? = some last ∧
      last ∈ DIGITS ∧
      (if 0 ≤ amount.num then CREDIT_MAP last else DEBIT_MAP last) = some enc ∧
      cfonb_encode_amount amount decimals width =
        .ok ((rjust (pyNatRepr (scaleAbs amount decimals)) width '0').dropLast ++ [enc]) := by
  have hne : pyNatRepr (scaleAbs amount decimals) ≠ [] := pyNatRepr_ne_nil _
  set ds := pyNatRepr (scaleAbs amount decimals) with hds
  have hlast? : ds.getLast? = some (ds.getLast hne) :=
    List.getLast?_eq_getLast_of_ne_nil hne
  set last := ds.getLast hne with hlastdef
  have hdig : last ∈ DIGITS := pyNatRepr_mem _ _ (List.getLast_mem hne)
  have hpad : (rjust ds width '0').getLast? = some last := by
    rw [rjust_getLast? _ _ _ hne, hlast?]
  have hlen : ds.length ≤ width := h
  obtain ⟨enc, henc⟩ :
      ∃ enc, (if 0 ≤ amount.num then CREDIT_MAP last else DEBIT_MAP last) = some enc := by
    by_cases hnum : 0 ≤ amount.num
    · rw [if_pos hnum]
      exact Option.isSome_iff_exists.1 (maps_isSome last hdig).1
    · rw [if_neg hnum]
      exact Option.isSome_iff_exists.1 (maps_isSome last hdig).2
  refine ⟨last, enc, hpad, hdig, henc, ?_⟩
  by_cases hnum : 0 ≤ amount.num
  · rw [if_pos hnum] at henc
    simp only [cfonb_encode_amount, ← hds, if_neg (Nat.not_lt.2 hlen), hpad, if_pos hnum,
      show (0 : Int) ≤ 1 by norm_num, if_true, henc]
  · rw [if_neg hnum] at henc
    simp only [cfonb_encode_amount, ← hds, if_neg (Nat.not_lt.2 hlen), hpad, if_neg hnum,
      show ¬ (0 : Int) ≤ -1 by norm_num, if_false, henc]

/-- Error characterization: the encoder fails exactly when the digit count of
the scaled magnitude exceeds the width. -/
theorem cfonb_encode_error (amount : Dec) (decimals width : Nat)
    (h : width < numDigits (scaleAbs amount decimals)) :
    cfonb_encode_amount amount decimals width =
      .error "Amount too large for CFONB width" := by
  simp only [cfonb_encode_amount]
  rw [if_pos (show width < (pyNatRepr (scaleAbs amount decimals)).length from h)]

/-! ## Claim theorems -/

/-- C1.  For every amount, a successful overpunch encoding is the zero-padded
digit string of the scaled magnitude with only its last character replaced,
through `CREDIT_MAP` when the amount is ≥ 0 and `DEBIT_MAP` when it is
negative; inverse lookup across both tables recovers the original last digit
and the sign; on the digit domain the two tables are injective and their
ranges disjoint. -/
theorem overpunch_round_trip :
    (∀ (amount : Dec) (decimals width : Nat) (out : Str),
      cfonb_encode_amount amount decimals width = .ok out →
        out.length = width ∧
        out.dropLast = (rjust (pyNatRepr (scaleAbs amount decimals)) width '0').dropLast ∧
        ∃ last enc,
          (rjust (pyNatRepr (scaleAbs amount decimals)) width '0').getLast? = some last ∧
          out.getLast? = some enc ∧
          (if 0 ≤ amount.num then CREDIT_MAP last = some enc
            else DEBIT_MAP last = some enc) ∧
          decode_overpunch enc = some (last, decide (0 ≤ amount.num))) ∧
    (∀ d1 ∈ DIGITS, ∀ d2 ∈ DIGITS,
      CREDIT_MAP d1 ≠ DEBIT_MAP d2 ∧
      (CREDIT_MAP d1 = CREDIT_MAP d2 → d1 = d2) ∧
      (DEBIT_MAP d1 = DEBIT_MAP d2 → d1 = d2)) := by
  constructor
  · intro amount decimals width out hok
    by_cases h : numDigits (scaleAbs amount decimals) ≤ width
    · obtain ⟨last, enc, hpad, hdig, henc, heq⟩ := cfonb_encode_ok amount decimals width h
      rw [heq] at hok
      injection hok with hout
      subst hout
      have hlenpad : (rjust (pyNatRepr (scaleAbs amount decimals)) width '0').length = width := by
        rw [rjust_length]
        have : numDigits (scaleAbs amount decimals) =
            (pyNatRepr (scaleAbs amount decimals)).length := rfl
        omega
      refine ⟨?_, List.dropLast_concat, last, enc, hpad, List.getLast?_concat _, ?_, ?_⟩
      · have hne : pyNatRepr (scaleAbs amount decimals) ≠ [] := pyNatRepr_ne_nil _
        have hpos : 0 < (rjust (pyNatRepr (scaleAbs amount decimals)) width '0').length := by
          rw [rjust_length]
          have := List.length_pos.2 hne
          omega
        simp only [List.length_append, List.length_dropLast, List.length_singleton]
        omega
      · by_cases hnum : 0 ≤ amount.num
        · rw [if_pos hnum]
          rw [if_pos hnum] at henc
          exact henc
        · rw [if_neg hnum]
          rw [if_neg hnum] at henc
          exact henc
      · by_cases hnum : 0 ≤ amount.num
        · rw [if_pos hnum] at henc
          have hdec := decode_CREDIT last hdig
          rw [henc] at hdec
          have h2 : decode_overpunch enc = some (last, true) := by simpa using hdec
          rw [decide_eq_true hnum]
          exact h2
        · rw [if_neg hnum] at henc
          have hdec := decode_DEBIT last hdig
          rw [henc] at hdec
          have h2 : decode_overpunch enc = some (last, false) := by simpa using hdec
          rw [decide_eq_false hnum]
          exact h2
    · rw [cfonb_encode_error amount decimals width (by omega)] at hok
      cases hok
  · decide

/-- C1 witness: the round trip at the debit amount `-12.50`
(encoded field `0000000001250` with the last `0` replaced by `\x7d`). -/
theorem overpunch_round_trip_witness :
    (['0','0','0','0','0','0','0','0','0','0','1','2','5','\x7d'] : Str).length = 14 ∧
    (['0','0','0','0','0','0','0','0','0','0','1','2','5','\x7d'] : Str).dropLast =
      (rjust (pyNatRepr (scaleAbs ⟨-1250, -2⟩ 2)) 14 '0').dropLast ∧
    ∃ last enc,
      (rjust (pyNatRepr (scaleAbs ⟨-1250, -2⟩ 2)) 14 '0').getLast? = some last ∧
      (['0','0','0','0','0','0','0','0','0','0','1','2','5','\x7d'] : Str).getLast? = some enc ∧
      (if 0 ≤ (⟨-1250, -2⟩ : Dec).num then CREDIT_MAP last = some enc
        else DEBIT_MAP last = some enc) ∧
      decode_overpunch enc = some (last, decide (0 ≤ (⟨-1250, -2⟩ : Dec).num)) :=
  overpunch_round_trip.1 ⟨-1250, -2⟩ 2 14
    ['0','0','0','0','0','0','0','0','0','0','1','2','5','\x7d'] (by decide)

/-- C4 counterexample: the claim prescribes round-half-up ties, but the code
quantizes under Python's default `ROUND_HALF_EVEN`: for the amount `0.125`
with two decimals the scaled value `12.5` rounds to `12` (even), while
round-half-up would give `13`; the emitted field accordingly ends in `'B'`
(digit 2, credit), not `'C'`. -/
theorem rounding_half_up_cex :
    scaleAbs ⟨125, -3⟩ 2 = 12 ∧
    scaleAbsHalfUpSpec ⟨125, -3⟩ 2 = 13 ∧
    cfonb_encode_amount ⟨125, -3⟩ 2 14 =
      .ok ['0','0','0','0','0','0','0','0','0','0','0','0','1','B'] := by
  decide

/-- `roundHalfEven` rounds `num / den` to a nearest integer, and on an exact
tie it picks the even neighbour. -/
theorem roundHalfEven_nearest (num den : Nat) (hden : den ≠ 0) :
    |(num : ℚ) / den - roundHalfEven num den| ≤ 1 / 2 ∧
    (|(num : ℚ) / den - roundHalfEven num den| = 1 / 2 →
      roundHalfEven num den % 2 = 0) := by
  have hd0 : (0 : ℚ) < den := by exact_mod_cast Nat.pos_of_ne_zero hden
  have hqr : (num : ℚ) = den * (num / den : Nat) + (num % den : Nat) := by
    exact_mod_cast (Nat.div_add_mod num den).symm
  have hrd : ((num % den : Nat) : ℚ) < den := by
    exact_mod_cast Nat.mod_lt _ (Nat.pos_of_ne_zero hden)
  have hr0 : (0 : ℚ) ≤ ((num % den : Nat) : ℚ) := by positivity
  have hxq : (num : ℚ) / den - (num / den : Nat) = (num % den : Nat) / den := by
    field_simp
    linarith [hqr]
  have hxq1 : (num : ℚ) / den - ((num / den : Nat) + 1) =
      (((num % den : Nat) : ℚ) - den) / den := by
    field_simp
    linarith [hqr]
  unfold roundHalfEven
  dsimp only
  split_ifs with h1 h2 h3
  · have h1' : 2 * ((num % den : Nat) : ℚ) < den := by exact_mod_cast h1
    rw [hxq, abs_of_nonneg (by positivity)]
    constructor
    · rw [div_le_div_iff hd0 (by norm_num)]
      linarith
    · intro ht
      rw [div_eq_div_iff hd0.ne' (by norm_num : (2:ℚ) ≠ 0)] at ht
      linarith
  · have h2' : (den : ℚ) < 2 * ((num % den : Nat) : ℚ) := by exact_mod_cast h2
    have hcast : (((num / den : Nat) + 1 : Nat) : ℚ) = ((num / den : Nat) : ℚ) + 1 := by
      push_cast
      ring
    rw [hcast, hxq1, abs_of_nonpos (div_nonpos_of_nonpos_of_nonneg (by linarith) (le_of_lt hd0))]
    constructor
    · rw [← neg_div, neg_sub, div_le_div_iff hd0 (by norm_num)]
      linarith
    · intro ht
      rw [← neg_div, neg_sub, div_eq_div_iff hd0.ne' (by norm_num : (2:ℚ) ≠ 0)] at ht
      linarith
  · have htie : 2 * (num % den) = den := by omega
    have htie' : 2 * ((num % den : Nat) : ℚ) = den := by exact_mod_cast htie
    rw [hxq, abs_of_nonneg (by positivity)]
    have hhalf : ((num % den : Nat) : ℚ) / den = 1 / 2 := by
      rw [div_eq_div_iff hd0.ne' (by norm_num : (2:ℚ) ≠ 0)]
      linarith
    rw [hhalf]
    exact ⟨le_refl _, fun _ => h3⟩
  · have htie : 2 * (num % den) = den := by omega
    have htie' : 2 * ((num % den : Nat) : ℚ) = den := by exact_mod_cast htie
    have hcast : (((num / den : Nat) + 1 : Nat) : ℚ) = ((num / den : Nat) : ℚ) + 1 := by
      push_cast
      ring
    rw [hcast, hxq1, abs_of_nonpos (div_nonpos_of_nonpos_of_nonneg (by linarith) (le_of_lt hd0))]
    have hhalf : -((((num % den : Nat) : ℚ) - den) / den) = 1 / 2 := by
      rw [← neg_div, neg_sub, div_eq_div_iff hd0.ne' (by norm_num : (2:ℚ) ≠ 0)]
      linarith
    rw [hhalf]
    refine ⟨le_refl _, fun _ => ?_⟩
    omega

/-- C4 (amended).  The encoder's scaling step computes, in exact decimal
arithmetic, a nearest integer to `|amount| * 10 ^ decimals`, resolving exact
`.5` ties to the even neighbour (Python `Decimal`'s default
`ROUND_HALF_EVEN`), not away from zero. -/
theorem amount_rounding_half_even (amount : Dec) (decimals : Nat) :
    |(|amount.toRat| * (10 : ℚ) ^ decimals) - (scaleAbs amount decimals : ℚ)| ≤ 1 / 2 ∧
    (|(|amount.toRat| * (10 : ℚ) ^ decimals) - (scaleAbs amount decimals : ℚ)| = 1 / 2 →
      scaleAbs amount decimals % 2 = 0) := by
  have h10 : (10 : ℚ) ≠ 0 := by norm_num
  have habs : |amount.toRat| = (amount.num.natAbs : ℚ) * (10 : ℚ) ^ amount.exp := by
    rw [Dec.toRat, abs_mul, abs_of_pos (zpow_pos (by norm_num : (0:ℚ) < 10) _)]
    congr 1
    rw [Int.cast_natAbs, Int.cast_abs]
  have hx : |amount.toRat| * (10 : ℚ) ^ decimals =
      (amount.num.natAbs : ℚ) * (10 : ℚ) ^ (amount.exp + decimals) := by
    rw [habs, mul_assoc, ← zpow_natCast (10:ℚ) decimals, ← zpow_add₀ h10]
  rw [hx]
  unfold scaleAbs quantN
  split_ifs with he
  · have hzero : (amount.num.natAbs : ℚ) * (10 : ℚ) ^ (amount.exp + decimals) =
        ((amount.num.natAbs * 10 ^ (amount.exp + decimals).toNat : Nat) : ℚ) := by
      push_cast
      rw [← zpow_natCast (10:ℚ), Int.toNat_of_nonneg he]
    rw [hzero, sub_self, abs_zero]
    refine ⟨by norm_num, fun h => ?_⟩
    norm_num at h
  · set k := (-(amount.exp + decimals)).toNat with hkdef
    have hne : (10 : ℕ) ^ k ≠ 0 := pow_ne_zero _ (by norm_num)
    have h := roundHalfEven_nearest amount.num.natAbs ((10:ℕ) ^ k) hne
    have hval : (amount.num.natAbs : ℚ) * (10 : ℚ) ^ (amount.exp + decimals) =
        (amount.num.natAbs : ℚ) / ((((10:ℕ) ^ k : ℕ)) : ℚ) := by
      have hcast : ((((10:ℕ) ^ k : ℕ)) : ℚ) = (10:ℚ) ^ k := by push_cast; ring
      rw [hcast, div_eq_mul_inv]
      congr 1
      have he2 : amount.exp + (decimals : ℤ) = -(k : ℤ) := by omega
      rw [he2, zpow_neg, zpow_natCast]
    rw [hval]
    exact h

/-- C4 witness: at the tie amount `0.125` with two decimals the scaled value
is at distance exactly `1/2`, and the chosen integer (12) is even. -/
theorem amount_rounding_half_even_witness : scaleAbs ⟨125, -3⟩ 2 % 2 = 0 :=
  (amount_rounding_half_even ⟨125, -3⟩ 2).2 (by
    have h12 : scaleAbs ⟨125, -3⟩ 2 = 12 := by decide
    rw [h12, Dec.toRat]
    norm_num
    rw [abs_of_nonneg (by norm_num : (0:ℚ) ≤ 1/8)]
    rw [show (1:ℚ)/8 * 100 - 12 = 1/2 from by norm_num]
    rw [abs_of_nonneg (by norm_num : (0:ℚ) ≤ 1/2)])

theorem putField_length120 (line : Str) (start stop : Nat) (v : Str) (a : Bool)
    (h : line.length = 120) (h1 : start ≤ stop) (h2 : stop ≤ 120) :
    (putField line start stop v a).length = 120 := by
  have hv : (if a then rjust (v.take (stop - start)) (stop - start) ' '
      else ljust (v.take (stop - start)) (stop - start) ' ').length = stop - start := by
    split <;> simp [rjust, ljust] <;> omega
  simp only [putField, List.length_append, List.length_take, List.length_drop, hv, h]
  omega

theorem build_line_length (rec_type bank_code branch_code account_number date_ddmmyy
    amount_str name ref comp_type comp_info : Str) :
    (build_line rec_type bank_code branch_code account_number date_ddmmyy
      amount_str name ref comp_type comp_info).length = CFONB_WIDTH := by
  show _ = 120
  rw [build_line]
  split
  all_goals
    split
  all_goals
    repeat
      refine putField_length120 _ _ _ _ _ ?_ (by omega) (by omega)
  all_goals simp [CFONB_WIDTH]



theorem txLines_length (bank branch acct : Str) (seq : Nat) (tx : Tx) (ls : List Str)
    (h : txLines bank branch acct seq tx = .ok ls) : ∀ l ∈ ls, l.length = CFONB_WIDTH := by
  unfold txLines at h
  split at h
  · cases h
  · split at h
    · injection h with h2
      subst h2
      intro l hm
      simp only [List.mem_cons, List.not_mem_nil, or_false] at hm
      rcases hm with rfl | rfl
      · exact build_line_length _ _ _ _ _ _ _ _ _ _
      · exact build_line_length _ _ _ _ _ _ _ _ _ _
    · injection h with h2
      subst h2
      intro l hm
      simp only [List.mem_cons, List.not_mem_nil, or_false] at hm
      rcases hm with rfl
      exact build_line_length _ _ _ _ _ _ _ _ _ _

theorem txsLines_length (bank branch acct : Str) : ∀ (seq : Nat) (txs : List Tx) (ls : List Str),
    txsLines bank branch acct seq txs = .ok ls → ∀ l ∈ ls, l.length = CFONB_WIDTH := by
  intro seq txs
  induction txs generalizing seq with
  | nil =>
    intro ls h l hm
    unfold txsLines at h
    injection h with h2
    subst h2
    simp at hm
  | cons tx rest ih =>
    intro ls h l hm
    unfold txsLines at h
    split at h
    · cases h
    · rename_i ls1 h1
      split at h
      · cases h
      · rename_i ls2 h2
        injection h with h3
        subst h3
        rcases List.mem_append.1 hm with hm1 | hm2
        · exact txLines_length _ _ _ _ _ _ h1 l hm1
        · exact ih (seq + 1) ls2 h2 l hm2

theorem mainLines_length (bank branch acct : Str) (mode : BalanceMode)
    (ob : Option Dec) (txs : List Tx) (out : List Str)
    (h : mainLines bank branch acct mode ob txs = .ok out) :
    ∀ l ∈ out, l.length = CFONB_WIDTH := by
  unfold mainLines at h
  cases txs with
  | nil => cases h
  | cons t0 rest =>
    dsimp only at h
    split at h
    · cases h
    · rename_i openAmt hopen
      split at h
      · cases h
      · rename_i body hbody
        split at h
        · cases h
        · rename_i closeAmt hclose
          injection h with h2
          subst h2
          intro l hm
          rcases List.mem_cons.1 hm with rfl | hm
          · exact build_line_length _ _ _ _ _ _ _ _ _ _
          · rcases List.mem_append.1 hm with hm1 | hm2
            · exact txsLines_length _ _ _ _ _ _ hbody l hm1
            · rcases List.mem_singleton.1 hm2 with rfl
              exact build_line_length _ _ _ _ _ _ _ _ _ _



theorem line_width_invariant :
    (∀ rec_type bank_code branch_code account_number date_ddmmyy
        amount_str name ref comp_type comp_info : Str,
      (build_line rec_type bank_code branch_code account_number date_ddmmyy
        amount_str name ref comp_type comp_info).length = CFONB_WIDTH) ∧
    (∀ (bank branch acct : Str) (mode : BalanceMode) (ob : Option Dec)
        (txs : List Tx) (out : List Str),
      mainLines bank branch acct mode ob txs = .ok out →
      ∀ l ∈ out, l.length = CFONB_WIDTH) :=
  ⟨build_line_length, mainLines_length⟩

theorem line_width_invariant_witness :
    (((mainLines [] [] [] .opening none
        [⟨['0','1','0','1','2','4'], ⟨1250, -2⟩, ['C','A','F','E']⟩]).toOption.getD
          []).getD 0 []).length = CFONB_WIDTH :=
  line_width_invariant.2 [] [] [] .opening none
    [⟨['0','1','0','1','2','4'], ⟨1250, -2⟩, ['C','A','F','E']⟩]
    ((mainLines [] [] [] .opening none
        [⟨['0','1','0','1','2','4'], ⟨1250, -2⟩, ['C','A','F','E']⟩]).toOption.getD [])
    (by decide)
    (((mainLines [] [] [] .opening none
        [⟨['0','1','0','1','2','4'], ⟨1250, -2⟩, ['C','A','F','E']⟩]).toOption.getD
          []).getD 0 [])
    (by decide)

theorem txLines_ok (bank branch acct : Str) (seq : Nat) (tx : Tx)
    (h : numDigits (scaleAbs tx.amount 2) ≤ 14) :
    ∃ ls, txLines bank branch acct seq tx = .ok ls := by
  obtain ⟨last, enc, _, _, _, henc⟩ := cfonb_encode_ok tx.amount 2 14 h
  unfold txLines
  rw [henc]
  dsimp only
  split
  · exact ⟨_, rfl⟩
  · exact ⟨_, rfl⟩

theorem txsLines_ok (bank branch acct : Str) : ∀ (seq : Nat) (txs : List Tx),
    (∀ tx ∈ txs, numDigits (scaleAbs tx.amount 2) ≤ 14) →
    ∃ ls, txsLines bank branch acct seq txs = .ok ls := by
  intro seq txs
  induction txs generalizing seq with
  | nil => exact fun _ => ⟨[], rfl⟩
  | cons tx rest ih =>
    intro hall
    obtain ⟨ls1, h1⟩ := txLines_ok bank branch acct seq tx (hall tx (by simp))
    obtain ⟨ls2, h2⟩ := ih (seq + 1) (fun t ht => hall t (by simp [ht]))
    unfold txsLines
    rw [h1, h2]
    exact ⟨_, rfl⟩

theorem mainLines_ok (bank branch acct : Str) (mode : BalanceMode)
    (ob : Option Dec) (txs : List Tx) (htxs : txs ≠ [])
    (h1 : numDigits (scaleAbs (mainBalances mode (ob.getD ⟨0, -2⟩)
      (Dec.sumList (txs.map Tx.amount))).1 2) ≤ 14)
    (h2 : numDigits (scaleAbs (mainBalances mode (ob.getD ⟨0, -2⟩)
      (Dec.sumList (txs.map Tx.amount))).2 2) ≤ 14)
    (hall : ∀ tx ∈ txs, numDigits (scaleAbs tx.amount 2) ≤ 14) :
    ∃ out, mainLines bank branch acct mode ob txs = .ok out := by
  cases txs with
  | nil => exact absurd rfl htxs
  | cons t0 rest =>
    obtain ⟨l1, e1, _, _, _, hopen⟩ := cfonb_encode_ok _ 2 14 h1
    obtain ⟨l2, e2, _, _, _, hclose⟩ := cfonb_encode_ok _ 2 14 h2
    obtain ⟨body, hbody⟩ := txsLines_ok bank branch acct 1 (t0 :: rest) hall
    unfold mainLines
    dsimp only
    rw [hopen, hbody, hclose]
    exact ⟨_, rfl⟩

theorem amount_overflow_iff :
    (∀ (amount : Dec) (decimals width : Nat),
      (∃ e, cfonb_encode_amount amount decimals width = .error e) ↔
        width < numDigits (scaleAbs amount decimals)) ∧
    (∀ (bank branch acct : Str) (mode : BalanceMode) (ob : Option Dec)
        (txs : List Tx),
      txs ≠ [] →
      numDigits (scaleAbs (mainBalances mode (ob.getD ⟨0, -2⟩)
        (Dec.sumList (txs.map Tx.amount))).1 2) ≤ 14 →
      numDigits (scaleAbs (mainBalances mode (ob.getD ⟨0, -2⟩)
        (Dec.sumList (txs.map Tx.amount))).2 2) ≤ 14 →
      (∀ tx ∈ txs, numDigits (scaleAbs tx.amount 2) ≤ 14) →
      ∃ out, mainLines bank branch acct mode ob txs = .ok out) := by
  constructor
  · intro amount decimals width
    constructor
    · rintro ⟨e, he⟩
      by_contra hnot
      obtain ⟨last, enc, _, _, _, hok⟩ :=
        cfonb_encode_ok amount decimals width (by omega)
      rw [hok] at he
      cases he
    · intro h
      exact ⟨_, cfonb_encode_error amount decimals width h⟩
  · intro bank branch acct mode ob txs htxs h1 h2 hall
    exact mainLines_ok bank branch acct mode ob txs htxs h1 h2 hall

theorem amount_overflow_iff_witness :
    (mainLines [] [] [] .opening none
      [⟨['0','2','0','1','2','4'], ⟨-95000, -2⟩, List.replicate 102 'A'⟩]).toOption.isSome
      = true := by
  obtain ⟨out, hout⟩ := amount_overflow_iff.2 [] [] [] .opening none
    [⟨['0','2','0','1','2','4'], ⟨-95000, -2⟩, List.replicate 102 'A'⟩]
    (by decide) (by decide) (by decide) (by decide)
  rw [hout]
  rfl

theorem Dec.toRat_add (a b : Dec) : (a.add b).toRat = a.toRat + b.toRat := by
  have h10 : (10 : ℚ) ≠ 0 := by norm_num
  have hma : min a.exp b.exp ≤ a.exp := min_le_left _ _
  have hmb : min a.exp b.exp ≤ b.exp := min_le_right _ _
  simp only [Dec.add, Dec.toRat]
  push_cast
  rw [add_mul]
  congr 1
  · rw [mul_assoc, ← zpow_natCast (10:ℚ), Int.toNat_of_nonneg (sub_nonneg.2 hma),
      ← zpow_add₀ h10, sub_add_cancel]
  · rw [mul_assoc, ← zpow_natCast (10:ℚ), Int.toNat_of_nonneg (sub_nonneg.2 hmb),
      ← zpow_add₀ h10, sub_add_cancel]

theorem Dec.toRat_neg (a : Dec) : a.neg.toRat = -a.toRat := by
  simp only [Dec.neg, Dec.toRat]
  push_cast
  ring

theorem Dec.toRat_sub (a b : Dec) : (a.sub b).toRat = a.toRat - b.toRat := by
  rw [Dec.sub, Dec.toRat_add, Dec.toRat_neg]
  ring

theorem Dec.foldl_add_toRat (l : List Dec) :
    ∀ init : Dec, (l.foldl Dec.add init).toRat = init.toRat + (l.map Dec.toRat).sum := by
  induction l with
  | nil => intro init; simp
  | cons a t ih =>
    intro init
    simp only [List.foldl_cons, List.map_cons, List.sum_cons, ih, Dec.toRat_add]
    ring

theorem Dec.sumList_toRat (l : List Dec) :
    (Dec.sumList l).toRat = (l.map Dec.toRat).sum := by
  rw [Dec.sumList, Dec.foldl_add_toRat]
  simp [Dec.toRat]

theorem balance_closure :
    (∀ (mode : BalanceMode) (openingBalance total : Dec),
      (mainBalances mode openingBalance total).2.toRat =
        (mainBalances mode openingBalance total).1.toRat + total.toRat) ∧
    (∀ txs : List Tx,
      (Dec.sumList (txs.map Tx.amount)).toRat =
        ((txs.map Tx.amount).map Dec.toRat).sum) := by
  constructor
  · intro mode o t
    cases mode
    · simp [mainBalances, Dec.toRat_add]
    · simp only [mainBalances, Dec.toRat_sub]
      ring
  · intro txs
    exact Dec.sumList_toRat _

theorem balance_closure_cex :
    (convertAmounts (some ⟨5, 0⟩) [⟨1, 0⟩]).1 = some ⟨5, 0⟩ ∧
    (convertAmounts (some ⟨5, 0⟩) [⟨1, 0⟩]).2.toRat = 1 ∧
    Dec.toRat ⟨5, 0⟩ + Dec.toRat ⟨1, 0⟩ = 6 ∧ (1 : ℚ) ≠ 6 := by
  refine ⟨rfl, ?_, ?_, by norm_num⟩
  · norm_num [convertAmounts, Dec.add, Dec.toRat]
  · norm_num [Dec.toRat]

theorem processRows_append (st : ParseState) (l1 l2 : List (List Str)) :
    processRows st (l1 ++ l2) =
      match processRows st l1 with
      | .error e => .error e
      | .ok st2 => processRows st2 l2 := by
  induction l1 generalizing st with
  | nil => simp [processRows]
  | cons r rest ih =>
    simp only [List.cons_append, processRows]
    cases rowStep st r with
    | error e => rfl
    | ok st2 => exact ih st2

theorem rowStep_invalid (st : ParseState) (row : List Str)
    (hrow : row ≠ [])
    (hd : dateRe (pyStrip (getCol (pad6 row) 0)) = true)
    (hnb : pyStrip (getCol (pad6 row) 4) ≠ [])
    (hbad : decParse (normalizeAmount (pyStrip (getCol (pad6 row) 4))) = none) :
    rowStep st row = .error "Invalid amount" := by
  unfold rowStep
  rw [if_neg hrow]
  dsimp only
  rw [if_neg (by simp [hd])]
  rw [if_neg (by simp [hd])]
  rw [if_neg (by simp [hd])]
  have hpa : parse_amount (some (getCol (pad6 row) 4)) = .error "Invalid amount" := by
    unfold parse_amount
    dsimp only
    rw [if_neg hnb, hbad]
  rw [hpa]

theorem rowStep_blank_skip (st : ParseState) (row : List Str)
    (hrow : row ≠ [])
    (hd : dateRe (pyStrip (getCol (pad6 row) 0)) = true)
    (hblank : pyStrip (getCol (pad6 row) 4) = []) :
    rowStep st row = .ok ⟨true, st.opening, st.txs⟩ := by
  unfold rowStep
  rw [if_neg hrow]
  dsimp only
  rw [if_neg (by simp [hd])]
  rw [if_neg (by simp [hd])]
  rw [if_neg (by simp [hd])]
  have hpa : parse_amount (some (getCol (pad6 row) 4)) = .ok none := by
    unfold parse_amount
    dsimp only
    rw [if_pos hblank]
  rw [hpa]

/-- C6 helper composite. -/
theorem invalid_amount_fatal :
    (∀ (st : ParseState) (rows1 rows2 : List (List Str)) (row : List Str)
        (res : ParseState),
      row ≠ [] →
      dateRe (pyStrip (getCol (pad6 row) 0)) = true →
      pyStrip (getCol (pad6 row) 4) ≠ [] →
      decParse (normalizeAmount (pyStrip (getCol (pad6 row) 4))) = none →
      processRows st (rows1 ++ row :: rows2) ≠ .ok res) ∧
    (∀ (st : ParseState) (row : List Str),
      row ≠ [] →
      dateRe (pyStrip (getCol (pad6 row) 0)) = true →
      pyStrip (getCol (pad6 row) 4) = [] →
      rowStep st row = .ok ⟨true, st.opening, st.txs⟩) := by
  constructor
  · intro st rows1 rows2 row res hrow hd hnb hbad hok
    rw [processRows_append] at hok
    cases hpre : processRows st rows1 with
    | error e => rw [hpre] at hok; cases hok
    | ok st2 =>
      rw [hpre] at hok
      unfold processRows at hok
      rw [rowStep_invalid st2 row hrow hd hnb hbad] at hok
      cases hok
  · exact fun st row hrow hd hblank => rowStep_blank_skip st row hrow hd hblank



theorem invalid_amount_cex :
    dateRe (pyStrip ['0','1','/','0','1','/','2','0','2','4']) = true ∧
    processRows ⟨false, none, []⟩
      [[['0','1','/','0','1','/','2','0','2','4'], ['a'], ['b'], ['c'], [], []]] =
      .ok ⟨true, none, []⟩ := by
  decide

theorem invalid_amount_fatal_witness :
    processRows ⟨false, none, []⟩
      [[['0','1','/','0','1','/','2','0','2','4'], [], [], [], ['x'], []]] ≠
      .ok ⟨true, none, []⟩ ∧
    rowStep ⟨true, none, []⟩
      [['0','1','/','0','1','/','2','0','2','4'], [], [], [], [], []] =
      .ok ⟨true, none, []⟩ :=
  ⟨invalid_amount_fatal.1 ⟨false, none, []⟩ [] []
      [['0','1','/','0','1','/','2','0','2','4'], [], [], [], ['x'], []]
      ⟨true, none, []⟩ (by decide) (by decide) (by decide) (by decide),
   invalid_amount_fatal.2 ⟨true, none, []⟩
      [['0','1','/','0','1','/','2','0','2','4'], [], [], [], [], []]
      (by decide) (by decide) (by decide)⟩

theorem rowStep_summary_blank (st : ParseState) (row : List Str)
    (hrow : row ≠ [])
    (hst : st.started = true)
    (hd0 : dateRe (pyStrip (getCol (pad6 row) 0)) = false)
    (hd3 : dateRe (pyStrip (getCol (pad6 row) 3)) = true)
    (hblank : pyStrip (getCol (pad6 row) 5) = []) :
    rowStep st row = .ok ⟨true, none, st.txs⟩ := by
  unfold rowStep
  rw [if_neg hrow]
  dsimp only
  rw [if_neg (by simp [hst])]
  rw [if_pos (by simp [hd0, hd3])]
  have hpa : parse_amount (some (getCol (pad6 row) 5)) = .ok none := by
    unfold parse_amount
    dsimp only
    rw [if_pos hblank]
  rw [hpa]

theorem rowStep_summary_invalid (st : ParseState) (row : List Str)
    (hrow : row ≠ [])
    (hst : st.started = true)
    (hd0 : dateRe (pyStrip (getCol (pad6 row) 0)) = false)
    (hd3 : dateRe (pyStrip (getCol (pad6 row) 3)) = true)
    (hnb : pyStrip (getCol (pad6 row) 5) ≠ [])
    (hbad : decParse (normalizeAmount (pyStrip (getCol (pad6 row) 5))) = none) :
    rowStep st row = .error "Invalid amount" := by
  unfold rowStep
  rw [if_neg hrow]
  dsimp only
  rw [if_neg (by simp [hst])]
  rw [if_pos (by simp [hd0, hd3])]
  have hpa : parse_amount (some (getCol (pad6 row) 5)) = .error "Invalid amount" := by
    unfold parse_amount
    dsimp only
    rw [if_neg hnb, hbad]
  rw [hpa]

theorem opening_balance_cex :
    processRows ⟨false, none, []⟩
      [[['0','1','/','0','1','/','2','0','2','4'], ['x'], ['y'], ['z'], [], []],
       [['b','a','l'], [], [], ['0','2','/','0','1','/','2','0','2','4'], [],
        ['a','b','c']]] = .error "Invalid amount" := by
  decide

theorem opening_balance_default :
    (∀ (st : ParseState) (row : List Str),
      row ≠ [] → st.started = true →
      dateRe (pyStrip (getCol (pad6 row) 0)) = false →
      dateRe (pyStrip (getCol (pad6 row) 3)) = true →
      pyStrip (getCol (pad6 row) 5) = [] →
      rowStep st row = .ok ⟨true, none, st.txs⟩) ∧
    (∀ (bank branch acct : Str) (mode : BalanceMode) (txs : List Tx),
      mainLines bank branch acct mode none txs =
        mainLines bank branch acct mode (some ⟨0, -2⟩) txs) ∧
    (∀ (st st2 : ParseState) (rows1 rows2 : List (List Str)) (row : List Str)
        (res : ParseState),
      processRows st rows1 = .ok st2 → st2.started = true →
      row ≠ [] →
      dateRe (pyStrip (getCol (pad6 row) 0)) = false →
      dateRe (pyStrip (getCol (pad6 row) 3)) = true →
      pyStrip (getCol (pad6 row) 5) ≠ [] →
      decParse (normalizeAmount (pyStrip (getCol (pad6 row) 5))) = none →
      processRows st (rows1 ++ row :: rows2) ≠ .ok res) := by
  refine ⟨fun st row h1 h2 h3 h4 h5 => rowStep_summary_blank st row h1 h2 h3 h4 h5,
    fun bank branch acct mode txs => rfl, ?_⟩
  intro st st2 rows1 rows2 row res hpre hst hrow hd0 hd3 hnb hbad hok
  rw [processRows_append, hpre] at hok
  unfold processRows at hok
  rw [rowStep_summary_invalid st2 row hrow hst hd0 hd3 hnb hbad] at hok
  cases hok



theorem opening_balance_default_witness :
    rowStep ⟨true, none, []⟩
      [['b','a','l'], [], [], ['0','2','/','0','1','/','2','0','2','4'], [], []] =
      .ok ⟨true, none, []⟩ ∧
    mainLines [] [] [] .opening none [] =
      mainLines [] [] [] .opening (some ⟨0, -2⟩) [] ∧
    processRows ⟨false, none, []⟩
      ([[['0','1','/','0','1','/','2','0','2','4'], [], [], [], [], []]] ++
        [['b','a','l'], [], [], ['0','2','/','0','1','/','2','0','2','4'], [], ['x']] ::
          []) ≠ .ok ⟨true, none, []⟩ :=
  ⟨opening_balance_default.1 ⟨true, none, []⟩
      [['b','a','l'], [], [], ['0','2','/','0','1','/','2','0','2','4'], [], []]
      (by decide) rfl (by decide) (by decide) (by decide),
   opening_balance_default.2.1 [] [] [] .opening [],
   opening_balance_default.2.2 ⟨false, none, []⟩ ⟨true, none, []⟩
      [[['0','1','/','0','1','/','2','0','2','4'], [], [], [], [], []]] []
      [['b','a','l'], [], [], ['0','2','/','0','1','/','2','0','2','4'], [], ['x']]
      ⟨true, none, []⟩ (by decide) rfl (by decide) (by decide) (by decide)
      (by decide) (by decide)⟩

theorem truncation_cex :
    pad_left ['A','B','C'] 2 ' ' = ['A','B'] ∧
    (putField (List.replicate 120 ' ') 0 2 ['A','B','C'] true).take 2 = ['A','B'] ∧
    (['A','B'] : Str) ≠ ['B','C'] := by
  decide

theorem truncation_keeps_left :
    (∀ (s : Str) (len : Nat) (f : Char), len ≤ s.length →
      pad_left s len f = s.take len ∧ pad_right s len f = s.take len) ∧
    (∀ (line v : Str) (start stop : Nat) (a : Bool), stop - start ≤ v.length →
      putField line start stop v a =
        line.take start ++ v.take (stop - start) ++ line.drop stop) := by
  constructor
  · intro s len f h
    constructor
    · simp [pad_left, rjust, Nat.sub_eq_zero_of_le h]
    · simp [pad_right, ljust, Nat.sub_eq_zero_of_le h]
  · intro line v start stop a h
    unfold putField
    dsimp only
    have hl : (v.take (stop - start)).length = stop - start := by
      simp only [List.length_take]
      omega
    split <;> simp [rjust, ljust, hl]

theorem truncation_keeps_left_witness :
    (pad_left ['A','B','C'] 2 ' ' = (['A','B','C'] : Str).take 2 ∧
     pad_right ['A','B','C'] 2 ' ' = (['A','B','C'] : Str).take 2) ∧
    putField [] 0 2 ['A','B','C'] true =
      ([] : Str).take 0 ++ (['A','B','C'] : Str).take (2 - 0) ++ ([] : Str).drop 2 :=
  ⟨truncation_keeps_left.1 ['A','B','C'] 2 ' ' (by decide),
   truncation_keeps_left.2 [] ['A','B','C'] 0 2 true (by decide)⟩

theorem label_chunks_cex :
    inlineName (List.replicate 102 'A') ++ compChunk (List.replicate 102 'A') ≠
      List.replicate 102 'A' ∧
    (txLines [] [] [] 1 ⟨[], ⟨0, 0⟩, List.replicate 102 'A'⟩).toOption.map
      List.length = some 2 := by
  decide

theorem label_chunks :
    (∀ label : Str, inlineName label ++ compChunk label = label.take 101) ∧
    (∀ label : Str, label.length ≤ 101 →
      inlineName label ++ compChunk label = label) ∧
    (∀ (bank branch acct : Str) (seq : Nat) (tx : Tx) (out : List Str),
      txLines bank branch acct seq tx = .ok out →
      out.length = if 31 < tx.label.length then 2 else 1) := by
  have hpart : ∀ label : Str, inlineName label ++ compChunk label = label.take 101 := by
    intro label
    rw [inlineName, compChunk, ← List.take_add]
  refine ⟨hpart, fun label h => ?_, ?_⟩
  · rw [hpart, List.take_of_length_le h]
  · intro bank branch acct seq tx out h
    unfold txLines at h
    split at h
    · cases h
    · dsimp only at h
      split at h
      · rename_i hlong
        injection h with h2
        subst h2
        rw [if_pos hlong]
        rfl
      · rename_i hshort
        injection h with h2
        subst h2
        rw [if_neg hshort]
        rfl

theorem label_chunks_witness :
    inlineName ['A'] ++ compChunk ['A'] = (['A'] : Str).take 101 ∧
    inlineName ['A'] ++ compChunk ['A'] = ['A'] ∧
    ((txLines [] [] [] 1 ⟨[], ⟨0, 0⟩, ['A']⟩).toOption.getD []).length =
      if 31 < (['A'] : Str).length then 2 else 1 :=
  ⟨label_chunks.1 ['A'],
   label_chunks.2.1 ['A'] (by decide),
   label_chunks.2.2 [] [] [] 1 ⟨[], ⟨0, 0⟩, ['A']⟩
     ((txLines [] [] [] 1 ⟨[], ⟨0, 0⟩, ['A']⟩).toOption.getD []) (by decide)⟩

theorem toNat_ofNat_lt {m : Nat} (h : m < 55296) : (Char.ofNat m).toNat = m := by
  rw [Char.ofNat, dif_pos (Or.inl h)]
  rfl

theorem upperChar_ne_nil (c : Char) : upperChar c ≠ [] := by
  unfold upperChar
  dsimp only
  split_ifs <;> simp

theorem upperChar_eq_self_of (c : Char)
    (h1 : ¬(97 ≤ c.toNat ∧ c.toNat ≤ 122)) (h2 : c.toNat ≠ 223)
    (h3 : c.toNat ≠ 181) (h4 : c.toNat ≠ 255)
    (h5 : ¬(224 ≤ c.toNat ∧ c.toNat ≤ 254 ∧ c.toNat ≠ 247)) :
    upperChar c = [c] := by
  unfold upperChar
  dsimp only
  rw [if_neg h1, if_neg h2, if_neg h3, if_neg h4, if_neg h5]

theorem isSpaceChar_false_of_range {c : Char}
    (h : (65 ≤ c.toNat ∧ c.toNat ≤ 90) ∨ (192 ≤ c.toNat ∧ c.toNat ≤ 222)) :
    isSpaceChar c = false := by
  unfold isSpaceChar
  simp only [Bool.or_eq_false_iff, decide_eq_false_iff_not, Bool.and_eq_false_iff,
    Bool.not_eq_true, decide_eq_true_eq]
  omega



theorem upperChar_not_space {c : Char} (hc : isSpaceChar c = false) :
    ∀ d ∈ upperChar c, isSpaceChar d = false := by
  intro d hd
  unfold upperChar at hd
  dsimp only at hd
  split_ifs at hd with h1 h2 h3 h4 h5
  · simp only [List.mem_singleton] at hd
    subst hd
    exact isSpaceChar_false_of_range (Or.inl (by rw [toNat_ofNat_lt (by omega)]; omega))
  · simp only [List.mem_cons, List.not_mem_nil, or_false] at hd
    rcases hd with rfl | rfl <;> decide
  · simp only [List.mem_singleton] at hd
    subst hd
    decide
  · simp only [List.mem_singleton] at hd
    subst hd
    decide
  · simp only [List.mem_singleton] at hd
    subst hd
    exact isSpaceChar_false_of_range (Or.inr (by rw [toNat_ofNat_lt (by omega)]; omega))
  · simp only [List.mem_singleton] at hd
    subst hd
    exact hc

theorem latin1Char_not_space {c : Char} (hc : isSpaceChar c = false) :
    isSpaceChar (latin1Char c) = false := by
  unfold latin1Char
  split_ifs
  · exact hc
  · decide

/-- Characters produced by `latin1Char ∘ upperChar` are fixed points of both
`upperChar` and `latin1Char`. -/
theorem clean_of_not_special (e : Char)
    (h1 : ¬(97 ≤ e.toNat ∧ e.toNat ≤ 122)) (h2 : e.toNat ≠ 223)
    (h3 : e.toNat ≠ 181) (h4 : e.toNat ≠ 255)
    (h5 : ¬(224 ≤ e.toNat ∧ e.toNat ≤ 254 ∧ e.toNat ≠ 247)) :
    upperChar (latin1Char e) = [latin1Char e] ∧
    latin1Char (latin1Char e) = latin1Char e := by
  by_cases he : e.toNat ≤ 255
  · have hl : latin1Char e = e := by
      unfold latin1Char
      rw [if_pos he]
    rw [hl]
    exact ⟨upperChar_eq_self_of e h1 h2 h3 h4 h5, hl⟩
  · have hq : latin1Char e = '?' := by
      unfold latin1Char
      rw [if_neg he]
    rw [hq]
    exact ⟨by decide, by decide⟩

/-- Characters produced by `latin1Char ∘ upperChar` are fixed points of both
`upperChar` and `latin1Char`. -/
theorem upper_latin1_clean (c d : Char) (hd : d ∈ upperChar c) :
    upperChar (latin1Char d) = [latin1Char d] ∧
    latin1Char (latin1Char d) = latin1Char d := by
  unfold upperChar at hd
  dsimp only at hd
  split_ifs at hd with h1 h2 h3 h4 h5
  · simp only [List.mem_singleton] at hd
    subst hd
    have hv : (Char.ofNat (c.toNat - 32)).toNat = c.toNat - 32 :=
      toNat_ofNat_lt (by omega)
    exact clean_of_not_special _ (by omega) (by omega) (by omega) (by omega) (by omega)
  · simp only [List.mem_cons, List.not_mem_nil, or_false] at hd
    rcases hd with rfl | rfl <;> exact ⟨by decide, by decide⟩
  · simp only [List.mem_singleton] at hd
    subst hd
    exact ⟨by decide, by decide⟩
  · simp only [List.mem_singleton] at hd
    subst hd
    exact ⟨by decide, by decide⟩
  · simp only [List.mem_singleton] at hd
    subst hd
    have hv : (Char.ofNat (c.toNat - 32)).toNat = c.toNat - 32 :=
      toNat_ofNat_lt (by omega)
    exact clean_of_not_special _ (by omega) (by omega) (by omega) (by omega) (by omega)
  · simp only [List.mem_singleton] at hd
    subst hd
    exact clean_of_not_special _ h1 h2 h3 h4 h5



theorem dropWhile_eq_self_head {p : Char → Bool} {l : Str}
    (h : ∀ c, l.head? = some c → p c = false) : l.dropWhile p = l := by
  cases l with
  | nil => rfl
  | cons a t =>
    rw [List.dropWhile_cons]
    simp [h a rfl]

theorem takeWhile_append_word {p : Char → Bool} :
    ∀ (w rest : Str), (∀ c ∈ w, p c = true) →
      (w ++ rest).takeWhile p = w ++ rest.takeWhile p := by
  intro w
  induction w with
  | nil => simp
  | cons a t ih =>
    intro rest hall
    simp only [List.cons_append, List.takeWhile_cons, hall a (by simp), if_pos]
    rw [ih rest (fun c hc => hall c (by simp [hc]))]

theorem dropWhile_append_word {p : Char → Bool} :
    ∀ (w rest : Str), (∀ c ∈ w, p c = true) →
      (w ++ rest).dropWhile p = rest.dropWhile p := by
  intro w
  induction w with
  | nil => simp
  | cons a t ih =>
    intro rest hall
    simp only [List.cons_append, List.dropWhile_cons, hall a (by simp), if_pos]
    rw [ih rest (fun c hc => hall c (by simp [hc]))]

theorem joinSpace_nil : joinSpace [] = [] := by
  simp [joinSpace, List.intercalate]

theorem joinSpace_single (w : Str) : joinSpace [w] = w := by
  simp [joinSpace, List.intercalate]

theorem joinSpace_cons2 (w w' : Str) (ws : List Str) :
    joinSpace (w :: w' :: ws) = w ++ ' ' :: joinSpace (w' :: ws) := by
  simp [joinSpace, List.intercalate, List.intersperse]

theorem pySplit_congr (l1 l2 : Str)
    (h : l1.dropWhile isSpaceChar = l2.dropWhile isSpaceChar) :
    pySplit l1 = pySplit l2 := by
  conv_lhs => rw [pySplit]
  conv_rhs => rw [pySplit]
  simp only [h]



theorem pySplit_good : ∀ (n : Nat) (l : Str), l.length ≤ n →
    ∀ w ∈ pySplit l, w ≠ [] ∧ ∀ c ∈ w, isSpaceChar c = false := by
  intro n
  induction n with
  | zero =>
    intro l hl w hw
    have hnil : l = [] := by
      cases l with
      | nil => rfl
      | cons a t => simp at hl
    subst hnil
    rw [pySplit] at hw
    simp at hw
  | succ n ih =>
    intro l hl w hw
    rw [pySplit] at hw
    by_cases h : l.dropWhile isSpaceChar = []
    · rw [dif_pos h] at hw
      simp at hw
    · rw [dif_neg h] at hw
      obtain ⟨c, r, ht⟩ := List.exists_cons_of_ne_nil h
      have hc : isSpaceChar c = false := dropWhile_head_not _ _ ht
      rcases List.mem_cons.1 hw with rfl | hw2
      · constructor
        · rw [ht, List.takeWhile_cons]
          simp [hc]
        · intro x hx
          have := List.mem_takeWhile_imp hx
          simpa using this
      · refine ih ((l.dropWhile isSpaceChar).dropWhile (fun c => !isSpaceChar c)) ?_ w hw2
        have h2 : (c :: r).length ≤ l.length := by
          rw [← ht]
          exact (List.dropWhile_sublist isSpaceChar).length_le
        rw [ht, List.dropWhile_cons]
        simp only [hc, Bool.not_false, if_pos]
        have h1 : (List.dropWhile (fun c => !isSpaceChar c) r).length ≤ r.length :=
          (List.dropWhile_sublist _).length_le
        simp only [List.length_cons] at h2
        omega

theorem pySplit_words_good (l : Str) :
    ∀ w ∈ pySplit l, w ≠ [] ∧ ∀ c ∈ w, isSpaceChar c = false :=
  pySplit_good l.length l le_rfl

theorem pySplit_joinSpace : ∀ ws : List Str,
    (∀ w ∈ ws, w ≠ [] ∧ ∀ c ∈ w, isSpaceChar c = false) →
    pySplit (joinSpace ws) = ws := by
  intro ws
  induction ws with
  | nil =>
    intro _
    rw [joinSpace_nil, pySplit]
    simp
  | cons w ws ih =>
    intro hgood
    obtain ⟨hw, hcw⟩ := hgood w (by simp)
    have hPall : ∀ c ∈ w, (!isSpaceChar c) = true := fun c hc => by simp [hcw c hc]
    cases ws with
    | nil =>
      rw [joinSpace_single, pySplit]
      have hdw : w.dropWhile isSpaceChar = w :=
        dropWhile_eq_self_head (fun c hc => hcw c (List.mem_of_mem_head? hc))
      rw [hdw]
      rw [dif_neg hw]
      have htw : w.takeWhile (fun c => !isSpaceChar c) = w := by
        have := takeWhile_append_word (p := fun c => !isSpaceChar c) w [] hPall
        simpa using this
      have hdw2 : w.dropWhile (fun c => !isSpaceChar c) = [] := by
        have := dropWhile_append_word (p := fun c => !isSpaceChar c) w [] hPall
        simpa using this
      rw [htw, hdw2, pySplit]
      simp
    | cons w2 ws2 =>
      rw [joinSpace_cons2, pySplit]
      obtain ⟨hw2, hcw2⟩ := hgood w2 (by simp)
      have hhead : ∀ c, (w ++ ' ' :: joinSpace (w2 :: ws2)).head? = some c →
          isSpaceChar c = false := by
        intro c hc
        cases w with
        | nil => exact absurd rfl hw
        | cons a t =>
          simp only [List.cons_append, List.head?_cons, Option.some_inj] at hc
          rw [← hc]
          exact hcw a (by simp)
      have hd : (w ++ ' ' :: joinSpace (w2 :: ws2)).dropWhile isSpaceChar =
          w ++ ' ' :: joinSpace (w2 :: ws2) := dropWhile_eq_self_head hhead
      rw [hd]
      rw [dif_neg (by simp [hw])]
      have hsp : isSpaceChar ' ' = true := by decide
      have htk : (w ++ ' ' :: joinSpace (w2 :: ws2)).takeWhile (fun c => !isSpaceChar c) = w := by
        rw [takeWhile_append_word w _ hPall, List.takeWhile_cons]
        simp [hsp]
      have hdp : (w ++ ' ' :: joinSpace (w2 :: ws2)).dropWhile (fun c => !isSpaceChar c) =
          ' ' :: joinSpace (w2 :: ws2) := by
        rw [dropWhile_append_word w _ hPall, List.dropWhile_cons]
        simp [hsp]
      rw [htk, hdp]
      have hcong : pySplit (' ' :: joinSpace (w2 :: ws2)) = pySplit (joinSpace (w2 :: ws2)) := by
        refine pySplit_congr _ _ ?_
        rw [List.dropWhile_cons]
        simp [hsp]
      rw [hcong, ih (fun u hu => hgood u (by simp [hu]))]



theorem pyUpper_append (a b : Str) : pyUpper (a ++ b) = pyUpper a ++ pyUpper b :=
  List.flatMap_append a b upperChar

theorem latin1Replace_append (a b : Str) :
    latin1Replace (a ++ b) = latin1Replace a ++ latin1Replace b :=
  List.map_append latin1Char a b

/-- `latin1Replace ∘ pyUpper` distributes over space-joined words. -/
theorem sanitizeF_join : ∀ ws : List Str,
    latin1Replace (pyUpper (joinSpace ws)) =
      joinSpace (ws.map (fun w => latin1Replace (pyUpper w))) := by
  intro ws
  induction ws with
  | nil => rfl
  | cons w ws ih =>
    cases ws with
    | nil =>
      rw [joinSpace_single, List.map_cons, List.map_nil, joinSpace_single]
    | cons w2 ws2 =>
      rw [joinSpace_cons2, pyUpper_append, latin1Replace_append]
      have hsep : latin1Replace (pyUpper (' ' :: joinSpace (w2 :: ws2))) =
          ' ' :: latin1Replace (pyUpper (joinSpace (w2 :: ws2))) := by
        show latin1Replace (upperChar ' ' ++ pyUpper (joinSpace (w2 :: ws2))) = _
        rw [show upperChar ' ' = [' '] from by decide]
        rfl
      rw [hsep, ih]
      simp only [List.map_cons]
      rw [joinSpace_cons2]

theorem pyUpper_ne_nil {w : Str} (hw : w ≠ []) : pyUpper w ≠ [] := by
  cases w with
  | nil => exact absurd rfl hw
  | cons a t =>
    show upperChar a ++ pyUpper t ≠ []
    simp [upperChar_ne_nil a]

/-- The transform of a nonempty whitespace-free word is nonempty and
whitespace-free. -/
theorem F_word_good (w : Str) (hw : w ≠ [])
    (hc : ∀ c ∈ w, isSpaceChar c = false) :
    latin1Replace (pyUpper w) ≠ [] ∧
      ∀ c ∈ latin1Replace (pyUpper w), isSpaceChar c = false := by
  constructor
  · intro hnil
    exact pyUpper_ne_nil hw (List.map_eq_nil_iff.1 hnil)
  · intro e he
    obtain ⟨d, hd, rfl⟩ := List.mem_map.1 he
    obtain ⟨c, hcmem, hdin⟩ := List.mem_flatMap.1 hd
    exact latin1Char_not_space (upperChar_not_space (hc c hcmem) d hdin)

theorem pyUpper_fixed {l : Str} (h : ∀ c ∈ l, upperChar c = [c]) : pyUpper l = l := by
  induction l with
  | nil => rfl
  | cons a t ih =>
    show upperChar a ++ pyUpper t = a :: t
    rw [h a (by simp), ih (fun c hc => h c (by simp [hc]))]
    rfl

theorem latin1Replace_fixed {l : Str} (h : ∀ c ∈ l, latin1Char c = c) :
    latin1Replace l = l := by
  induction l with
  | nil => rfl
  | cons a t ih =>
    show latin1Char a :: latin1Replace t = a :: t
    rw [h a (by simp), ih (fun c hc => h c (by simp [hc]))]

/-- The word transform is idempotent. -/
theorem F_word_fixed (w : Str) :
    latin1Replace (pyUpper (latin1Replace (pyUpper w))) =
      latin1Replace (pyUpper w) := by
  have hclean : ∀ e ∈ latin1Replace (pyUpper w),
      upperChar e = [e] ∧ latin1Char e = e := by
    intro e he
    obtain ⟨d, hd, rfl⟩ := List.mem_map.1 he
    obtain ⟨c, _, hdin⟩ := List.mem_flatMap.1 hd
    exact upper_latin1_clean c d hdin
  rw [pyUpper_fixed (fun e he => (hclean e he).1),
    latin1Replace_fixed (fun e he => (hclean e he).2)]

theorem pyStrip_eq_self {l : Str}
    (h1 : ∀ c, l.head? = some c → isSpaceChar c = false)
    (h2 : ∀ c, l.getLast? = some c → isSpaceChar c = false) : pyStrip l = l := by
  unfold pyStrip
  rw [dropWhile_eq_self_head h1]
  rw [dropWhile_eq_self_head (fun c hc => h2 c (by rwa [List.head?_reverse] at hc))]
  exact List.reverse_reverse l

theorem joinSpace_head? (w : Str) (ws : List Str) (hw : w ≠ []) :
    (joinSpace (w :: ws)).head? = w.head? := by
  cases ws with
  | nil => rw [joinSpace_single]
  | cons w2 ws2 =>
    rw [joinSpace_cons2, List.head?_append]
    cases w with
    | nil => exact absurd rfl hw
    | cons a t => rfl

theorem joinSpace_getLast? : ∀ (ws : List Str) (w : Str), w ≠ [] →
    (∀ u ∈ ws, u ≠ []) →
    (joinSpace (w :: ws)).getLast? = (ws.getLastD w).getLast? := by
  intro ws
  induction ws with
  | nil =>
    intro w _ _
    rw [joinSpace_single]
    rfl
  | cons w2 ws2 ih =>
    intro w hw hall
    rw [joinSpace_cons2, List.getLast?_append]
    have hw2 : w2 ≠ [] := hall w2 (by simp)
    have hne : joinSpace (w2 :: ws2) ≠ [] := by
      intro hnil
      have := joinSpace_head? w2 ws2 hw2
      rw [hnil] at this
      cases w2 with
      | nil => exact absurd rfl hw2
      | cons a t => simp at this
    have hcons : (' ' :: joinSpace (w2 :: ws2)).getLast? =
        (joinSpace (w2 :: ws2)).getLast? := by
      obtain ⟨b, u, hbu⟩ := List.exists_cons_of_ne_nil hne
      rw [hbu, List.getLast?_cons_cons]
    rw [hcons, ih w2 hw2 (fun u hu => hall u (by simp [hu]))]
    have : ∃ x, (ws2.getLastD w2).getLast? = some x := by
      have hne2 : ws2.getLastD w2 ≠ [] := by
        cases hlast : ws2.getLast? with
        | none =>
          have : ws2 = [] := by simpa using hlast
          subst this
          exact hw2
        | some u =>
          have hu : u ∈ ws2 := by
            have := List.getLast?_eq_getLast_of_ne_nil (l := ws2)
            cases ws2 with
            | nil => simp at hlast
            | cons v vs =>
              have h3 := List.getLast?_eq_getLast_of_ne_nil (l := v :: vs) (by simp)
              rw [hlast] at h3
              injection h3 with h4
              rw [h4]
              exact List.getLast_mem _
          have : ws2.getLastD w2 = u := by
            cases ws2 with
            | nil => simp at hlast
            | cons v vs =>
              have h3 := List.getLast?_eq_getLast_of_ne_nil (l := v :: vs) (by simp)
              rw [hlast] at h3
              injection h3 with h4
              simp [List.getLastD_eq_getLast?, hlast]
          rw [this]
          exact hall u (by simp [hu])
      exact ⟨(ws2.getLastD w2).getLast hne2,
        List.getLast?_eq_getLast_of_ne_nil hne2⟩
    obtain ⟨x, hx⟩ := this
    rw [List.getLastD_cons, hx]
    rfl



theorem mem_of_getLast?_eq {w : Str} {c : Char} (hc : w.getLast? = some c) : c ∈ w := by
  cases w with
  | nil => simp at hc
  | cons a t =>
    have h3 := List.getLast?_eq_getLast_of_ne_nil (l := a :: t) (by simp)
    rw [hc] at h3
    injection h3 with h4
    rw [h4]
    exact List.getLast_mem _

/-- C10.  The label sanitizer is idempotent: collapsing whitespace,
uppercasing and Latin-1 replacement reach a fixed point after one
application. -/
theorem sanitize_label_idempotent (l : Str) :
    sanitize_label (sanitize_label l) = sanitize_label l := by
  unfold sanitize_label
  have hgood : ∀ w ∈ pySplit (pyStrip l), w ≠ [] ∧ ∀ c ∈ w, isSpaceChar c = false :=
    pySplit_words_good _
  have hdist := sanitizeF_join (pySplit (pyStrip l))
  have hgood' : ∀ w ∈ (pySplit (pyStrip l)).map (fun w => latin1Replace (pyUpper w)),
      w ≠ [] ∧ ∀ c ∈ w, isSpaceChar c = false := by
    intro w hw
    obtain ⟨u, hu, rfl⟩ := List.mem_map.1 hw
    exact F_word_good u (hgood u hu).1 (hgood u hu).2
  have hstrip : pyStrip (joinSpace ((pySplit (pyStrip l)).map
      (fun w => latin1Replace (pyUpper w)))) =
      joinSpace ((pySplit (pyStrip l)).map (fun w => latin1Replace (pyUpper w))) := by
    cases hmf : (pySplit (pyStrip l)).map (fun w => latin1Replace (pyUpper w)) with
    | nil =>
      rw [joinSpace_nil]
      rfl
    | cons w0 rest =>
      have hw0 : w0 ≠ [] := (hgood' w0 (by rw [hmf]; simp)).1
      apply pyStrip_eq_self
      · intro c hc
        rw [joinSpace_head? w0 rest hw0] at hc
        exact (hgood' w0 (by rw [hmf]; simp)).2 c
          (List.mem_of_mem_head? (by rw [hc]; rfl))
      · intro c hc
        rw [joinSpace_getLast? rest w0 hw0
          (fun u hu => (hgood' u (by rw [hmf]; simp [hu])).1)] at hc
        have hlastmem : rest.getLastD w0 ∈ w0 :: rest := List.getLastD_mem_cons rest w0
        exact (hgood' _ (by rw [hmf]; exact hlastmem)).2 c (mem_of_getLast?_eq hc)
  have hsplit : pySplit (pyStrip (joinSpace ((pySplit (pyStrip l)).map
      (fun w => latin1Replace (pyUpper w))))) =
      (pySplit (pyStrip l)).map (fun w => latin1Replace (pyUpper w)) := by
    rw [hstrip]
    exact pySplit_joinSpace _ hgood'
  rw [hdist, hsplit, sanitizeF_join]
  have hmapmap : ((pySplit (pyStrip l)).map (fun w => latin1Replace (pyUpper w))).map
      (fun w => latin1Replace (pyUpper w)) =
      (pySplit (pyStrip l)).map (fun w => latin1Replace (pyUpper w)) := by
    rw [List.map_map]
    exact List.map_congr_left (fun u _ => F_word_fixed u)
  rw [hmapmap]

end CFONB
